import Mathlib

/-!
Verification of the Orb benchmark plotting scripts (`python/plot.py` and the
older `Tests/python/plot.py`).

The data model is the spreadsheet row (`Row`), the loader is the pair of
filtered-and-sorted subsets `harris`/`fast`, and the single piece of logic is
the taper detector `find_taper_point`.  Floating-point columns are embedded as
exact rationals (`ℚ`); the numpy epsilon `1e-9` is the rational `1 / 10^9`.
`pandas.sort_values` is embedded as a stable sort by the `features` column
(insertion sort), and `Series.str.startswith` as a character-list comparison.
-/

namespace Orb

/-- A row of the benchmark spreadsheet: `preset` label, integer `features`
sweep parameter, and the three floating-point measurement columns. -/
structure Row where
  preset : String
  features : Int
  avg_ms : ℚ
  grid_occupancy_percent : ℚ
  descriptor_density_per_occupied_cell : ℚ
deriving DecidableEq, Repr

/-- The guard constant `1e-9` added to each cost delta before dividing. -/
def eps : ℚ := 1 / 1000000000

/-- Consecutive differences, numpy's `x[1:] - x[:-1]`. -/
def diffs (xs : List ℚ) : List ℚ :=
  List.zipWith (fun b a => b - a) (xs.drop 1) xs

/-- The gain array `gain_per_ms = dm / (dc + 1e-9)` computed by
`find_taper_point` from the metric and cost columns of subset `d`. -/
def gain_per_ms (d : List Row) (metric cost : Row → ℚ) : List ℚ :=
  List.zipWith (fun dm dc => dm / (dc + eps)) (diffs (d.map metric)) (diffs (d.map cost))

/-- The loop body's test `(gain_per_ms[i:i+min_step] < threshold).all()`:
the slice of length `ms` starting at `i` is element-wise strictly below `th`.
(numpy's `.all()` on an empty slice is `True`, as is `List.all` on `[]`.) -/
def windowBelow (g : List ℚ) (i ms : ℕ) (th : ℚ) : Bool :=
  ((g.drop i).take ms).all (fun x => decide (x < th))

/-- `find_taper_point(d, metric_col, cost_col, min_step, threshold)`:
scan `i` over `range(len(gain_per_ms) - min_step + 1)` (the Python range is
empty when the bound is non-positive, hence the `Int.toNat` clamp) and return
`i + 1` for the first window entirely below the threshold, else `None`. -/
def find_taper_point (d : List Row) (metric cost : Row → ℚ)
    (min_step : ℕ) (threshold : ℚ) : Option ℕ :=
  ((List.range (((gain_per_ms d metric cost).length : ℤ) - min_step + 1).toNat).find?
      (fun i => windowBelow (gain_per_ms d metric cost) i min_step threshold)).map
    (fun i => i + 1)

/-- `pandas.Series.str.startswith`: the first `pre.length` characters of `s`
are exactly `pre`. -/
def str_startswith (s pre : String) : Bool :=
  decide (s.data.take pre.data.length = pre.data)

/-- Insertion step of the sort embedding: insert `x` after every element
whose `features` is strictly smaller. -/
def insertByFeatures (x : Row) : List Row → List Row
  | [] => [x]
  | y :: ys =>
    if y.features < x.features then y :: insertByFeatures x ys else x :: y :: ys

/-- `sort_values("features")`, embedded as insertion sort on the `features`
column.  pandas sorts ascending by the key, but with the script's default
`kind='quicksort'` the order among equal keys is implementation-defined, so
this embedding fixes one concrete sorted order; the theorems proved from it
use only properties that hold for every sorted reordering (membership). -/
def sort_values : List Row → List Row
  | [] => []
  | a :: l => insertByFeatures a (sort_values l)

/-- The loader's harris subset:
`df[df["preset"].str.startswith("harris_")].sort_values("features")`. -/
def harris (df : List Row) : List Row :=
  sort_values (df.filter (fun r => str_startswith r.preset "harris_"))

/-- The loader's fast subset:
`df[df["preset"].str.startswith("fast_")].sort_values("features")`. -/
def fast (df : List Row) : List Row :=
  sort_values (df.filter (fun r => str_startswith r.preset "fast_"))

/-- Position `i` starts a taper window: the window of `ms` consecutive gains
`g[i .. i+ms-1]` fits inside `g` and every gain in it is strictly below
`th`. -/
def IsTaperStart (g : List ℚ) (ms : ℕ) (th : ℚ) (i : ℕ) : Prop :=
  i + ms ≤ g.length ∧ ∀ x ∈ (g.drop i).take ms, x < th

/-- The list of divisors `dc + 1e-9` that `find_taper_point` divides by,
one per consecutive pair of rows of the cost column. -/
def cost_divisors (d : List Row) (cost : Row → ℚ) : List ℚ :=
  (diffs (d.map cost)).map (fun dc => dc + eps)

/-- Per-step gain as the spec's words state it: `delta_metric / delta_cost`,
with no epsilon in the divisor.  Stated only to compare against the
code's `gain_per_ms`. -/
def gain_exact (d : List Row) (metric cost : Row → ℚ) : List ℚ :=
  List.zipWith (fun dm dc => dm / dc) (diffs (d.map metric)) (diffs (d.map cost))

/-! ### Helper lemmas about the taper loop -/

theorem windowBelow_iff (g : List ℚ) (i ms : ℕ) (th : ℚ) :
    windowBelow g i ms th = true ↔ ∀ x ∈ (g.drop i).take ms, x < th := by
  simp [windowBelow, List.all_eq_true]

theorem find?_range_eq_some_iff {p : ℕ → Bool} : ∀ {n i : ℕ},
    (List.range n).find? p = some i ↔
      i < n ∧ p i = true ∧ ∀ j, j < i → p j = false := by
  intro n
  induction n with
  | zero => intro i; simp
  | succ n ih =>
    intro i
    rw [List.range_succ, List.find?_append]
    cases h : (List.range n).find? p with
    | some k =>
      obtain ⟨hkn, hpk, hmin⟩ := ih.mp h
      simp only [Option.or_some, Option.some.injEq]
      constructor
      · rintro rfl
        exact ⟨Nat.lt_succ_of_lt hkn, hpk, hmin⟩
      · rintro ⟨hin, hpi, hmini⟩
        rcases Nat.lt_trichotomy k i with hlt | heq | hgt
        · exact absurd hpk (by simp [hmini k hlt])
        · exact heq
        · exact absurd hpi (by simp [hmin i hgt])
    | none =>
      have hall : ∀ j, j < n → p j = false := by
        intro j hj
        have := List.find?_eq_none.mp h j (List.mem_range.mpr hj)
        simpa using this
      simp only [Option.none_or, List.find?_singleton]
      by_cases hpn : p n = true
      · simp only [hpn, if_pos, Option.some.injEq]
        constructor
        · rintro rfl
          exact ⟨Nat.lt_succ_self n, hpn, hall⟩
        · rintro ⟨hin, hpi, _⟩
          rcases Nat.lt_succ_iff_lt_or_eq.mp hin with hlt | heq
          · exact absurd hpi (by simp [hall i hlt])
          · exact heq.symm
      · simp only [Bool.not_eq_true] at hpn
        simp only [hpn, Bool.false_eq_true, if_false]
        constructor
        · intro h'; exact absurd h' (by simp)
        · rintro ⟨hin, hpi, _⟩
          rcases Nat.lt_succ_iff_lt_or_eq.mp hin with hlt | heq
          · exact absurd hpi (by simp [hall i hlt])
          · subst heq; exact absurd hpi (by simp [hpn])

theorem find?_range_eq_none_iff {p : ℕ → Bool} {n : ℕ} :
    (List.range n).find? p = none ↔ ∀ j, j < n → p j = false := by
  rw [List.find?_eq_none]
  constructor
  · intro h j hj
    have := h j (List.mem_range.mpr hj)
    simpa using this
  · intro h x hx
    simp [h x (List.mem_range.mp hx)]

theorem isTaperStart_iff_loop (g : List ℚ) (ms : ℕ) (th : ℚ) (i : ℕ) :
    IsTaperStart g ms th i ↔
      i < (((g.length : ℤ) - ms + 1)).toNat ∧ windowBelow g i ms th = true := by
  rw [IsTaperStart, windowBelow_iff]
  constructor
  · rintro ⟨hb, hw⟩; exact ⟨by omega, hw⟩
  · rintro ⟨hb, hw⟩; exact ⟨by omega, hw⟩

theorem taper_eq_some_iff (d : List Row) (m c : Row → ℚ) (ms : ℕ) (th : ℚ) (t : ℕ) :
    find_taper_point d m c ms th = some t ↔
      ∃ i, IsTaperStart (gain_per_ms d m c) ms th i ∧
        (∀ j, j < i → ¬ IsTaperStart (gain_per_ms d m c) ms th j) ∧ t = i + 1 := by
  rw [find_taper_point, Option.map_eq_some']
  constructor
  · rintro ⟨i, hfind, rfl⟩
    obtain ⟨hib, hpi, hmin⟩ := find?_range_eq_some_iff.mp hfind
    refine ⟨i, (isTaperStart_iff_loop _ _ _ _).mpr ⟨hib, hpi⟩, ?_, rfl⟩
    intro j hj hTj
    have h2 := ((isTaperStart_iff_loop _ _ _ _).mp hTj).2
    exact absurd h2 (by simp [hmin j hj])
  · rintro ⟨i, hT, hmin, rfl⟩
    obtain ⟨hib, hpi⟩ := (isTaperStart_iff_loop _ _ _ _).mp hT
    refine ⟨i, find?_range_eq_some_iff.mpr ⟨hib, hpi, ?_⟩, rfl⟩
    intro j hj
    by_contra hpj
    simp only [Bool.not_eq_false] at hpj
    exact hmin j hj ((isTaperStart_iff_loop _ _ _ _).mpr ⟨Nat.lt_trans hj hib, hpj⟩)

theorem taper_eq_none_iff (d : List Row) (m c : Row → ℚ) (ms : ℕ) (th : ℚ) :
    find_taper_point d m c ms th = none ↔
      ∀ i, ¬ IsTaperStart (gain_per_ms d m c) ms th i := by
  rw [find_taper_point, Option.map_eq_none', find?_range_eq_none_iff]
  constructor
  · intro h i hT
    obtain ⟨hib, hpi⟩ := (isTaperStart_iff_loop _ _ _ _).mp hT
    exact absurd hpi (by simp [h i hib])
  · intro h i hib
    by_contra hpi
    simp only [Bool.not_eq_false] at hpi
    exact h i ((isTaperStart_iff_loop _ _ _ _).mpr ⟨hib, hpi⟩)

theorem diffs_length (xs : List ℚ) : (diffs xs).length = xs.length - 1 := by
  simp [diffs]

theorem gain_per_ms_length (d : List Row) (m c : Row → ℚ) :
    (gain_per_ms d m c).length = d.length - 1 := by
  simp [gain_per_ms, diffs_length]

/-! ### Helper lemmas about the loader -/

theorem mem_insertByFeatures (x r : Row) (l : List Row) :
    r ∈ insertByFeatures x l ↔ r = x ∨ r ∈ l := by
  induction l with
  | nil => simp [insertByFeatures]
  | cons y ys ih =>
    rw [insertByFeatures]
    by_cases hlt : y.features < x.features
    · rw [if_pos hlt]
      simp only [List.mem_cons, ih]
      tauto
    · rw [if_neg hlt]
      simp only [List.mem_cons]

theorem mem_sort_values (r : Row) (l : List Row) : r ∈ sort_values l ↔ r ∈ l := by
  induction l with
  | nil => simp [sort_values]
  | cons a l ih =>
    rw [sort_values, mem_insertByFeatures]
    simp [ih]

theorem mem_harris_iff (df : List Row) (r : Row) :
    r ∈ harris df ↔ r ∈ df ∧ str_startswith r.preset "harris_" = true := by
  rw [harris, mem_sort_values, List.mem_filter]

theorem mem_fast_iff (df : List Row) (r : Row) :
    r ∈ fast df ↔ r ∈ df ∧ str_startswith r.preset "fast_" = true := by
  rw [fast, mem_sort_values, List.mem_filter]

theorem startswith_harris_not_fast (s : String)
    (h : str_startswith s "harris_" = true) : str_startswith s "fast_" = false := by
  rw [str_startswith, decide_eq_true_eq] at h
  rw [str_startswith, decide_eq_false_iff_not]
  intro hf
  have hlen7 : "harris_".data.length = 7 := rfl
  have hlen5 : "fast_".data.length = 5 := rfl
  rw [hlen7] at h
  rw [hlen5] at hf
  have : ("fast_".data : List Char) = "harris_".data.take 5 := by
    rw [← hf, ← h, List.take_take]
    norm_num
  exact absurd this (by decide)

theorem diffs_nonneg_of_chain' (xs : List ℚ) (h : List.Chain' (fun a b => a ≤ b) xs) :
    ∀ x ∈ diffs xs, 0 ≤ x := by
  induction xs with
  | nil => simp [diffs]
  | cons a xs ih =>
    cases xs with
    | nil => simp [diffs]
    | cons b ys =>
      rcases List.chain'_cons.mp h with ⟨hab, htail⟩
      intro x hx
      have hd : diffs (a :: b :: ys) = (b - a) :: diffs (b :: ys) := rfl
      rw [hd] at hx
      rcases List.mem_cons.mp hx with rfl | hmem
      · linarith
      · exact ih htail x hmem

instance (g : List ℚ) (ms : ℕ) (th : ℚ) (i : ℕ) : Decidable (IsTaperStart g ms th i) :=
  inferInstanceAs (Decidable (i + ms ≤ g.length ∧ ∀ x ∈ (g.drop i).take ms, x < th))

/-! ### Claim theorems -/

/-- Claim C1: for every subset, metric column, cost column, `min_step` and
threshold, `find_taper_point` returns `i + 1` exactly for the smallest `i`
such that the `min_step` consecutive gains `gain_per_ms[i .. i+min_step-1]`
all lie strictly below the threshold (and fit inside the gain array), and
returns `none` exactly when no such `i` exists. -/
theorem find_taper_point_spec (d : List Row) (m c : Row → ℚ) (ms : ℕ) (th : ℚ) :
    (∀ t, find_taper_point d m c ms th = some t ↔
      ∃ i, IsTaperStart (gain_per_ms d m c) ms th i ∧
        (∀ j, j < i → ¬ IsTaperStart (gain_per_ms d m c) ms th j) ∧ t = i + 1) ∧
    (find_taper_point d m c ms th = none ↔
      ∀ i, ¬ IsTaperStart (gain_per_ms d m c) ms th i) :=
  ⟨fun t => taper_eq_some_iff d m c ms th t, taper_eq_none_iff d m c ms th⟩

/-- Claim C3: a subset with fewer than `min_step + 1` rows admits no window,
so `find_taper_point` returns `none` (for a positive run length). -/
theorem find_taper_point_short (d : List Row) (m c : Row → ℚ) (ms : ℕ) (th : ℚ)
    (hms : 1 ≤ ms) (hlen : d.length < ms + 1) :
    find_taper_point d m c ms th = none := by
  rw [taper_eq_none_iff]
  intro i hT
  have h1 := hT.1
  have h2 := gain_per_ms_length d m c
  omega

/-- Witness for claim C3 at a concrete two-row subset with `min_step = 3`. -/
theorem find_taper_point_short_witness :
    1 ≤ 3 ∧
    ([⟨"harris_100", 100, 10, 40, 5⟩, ⟨"harris_200", 200, 18, 55, 5⟩] : List Row).length < 3 + 1 ∧
    find_taper_point [⟨"harris_100", 100, 10, 40, 5⟩, ⟨"harris_200", 200, 18, 55, 5⟩]
      (fun r => r.grid_occupancy_percent) (fun r => r.avg_ms) 3 (1/50) = none :=
  ⟨by norm_num, by norm_num,
    find_taper_point_short _ _ _ 3 (1/50) (by norm_num) (by norm_num)⟩

/-- The four-row table used by claim C4's counterexample: the metric rises by
exactly `threshold` per unit cost at every step. -/
def c4_rows : List Row :=
  [⟨"harris_100", 100, 0, 0, 0⟩, ⟨"harris_200", 200, 1, 1/50, 0⟩,
   ⟨"harris_300", 300, 2, 2/50, 0⟩, ⟨"harris_400", 400, 3, 3/50, 0⟩]

/-- Claim C4 is false as stated: on `c4_rows` the metric is strictly
increasing, the cost has constant positive increments `1`, and the per-step
gain `delta_metric / delta_cost` equals the threshold `1/50` at every step
(so it is everywhere `≥ threshold`), yet because the code divides by
`delta_cost + 1e-9` every computed gain is slightly below the threshold and
`find_taper_point` returns `some 1`, not `none`. -/
theorem taper_epsilon_counterexample :
    List.Chain' (fun a b => a.grid_occupancy_percent < b.grid_occupancy_percent) c4_rows ∧
    diffs (c4_rows.map (fun r => r.avg_ms)) = [1, 1, 1] ∧
    (∀ x ∈ gain_exact c4_rows (fun r => r.grid_occupancy_percent) (fun r => r.avg_ms),
      (1/50 : ℚ) ≤ x) ∧
    find_taper_point c4_rows (fun r => r.grid_occupancy_percent) (fun r => r.avg_ms)
      3 (1/50) = some 1 := by
  refine ⟨?_, ?_, ?_, ?_⟩
  · norm_num [c4_rows, List.chain'_cons]
  · norm_num [c4_rows, diffs]
  · norm_num [c4_rows, gain_exact, diffs]
  · norm_num [find_taper_point, gain_per_ms, diffs, windowBelow, eps, c4_rows,
      show List.range 1 = [0] from rfl]

/-- Claim C4 (amended): with a strictly increasing metric and constant
positive cost increments, if the per-step gain as computed by the code,
`delta_metric / (delta_cost + 1e-9)`, is `≥ threshold` at every step and the
run length is positive, then `find_taper_point` returns `none`. -/
theorem no_taper_of_gains_ge_threshold (d : List Row) (m c : Row → ℚ) (k th : ℚ) (ms : ℕ)
    (hms : 1 ≤ ms)
    (_hmetric : List.Chain' (fun a b => m a < m b) d)
    (_hk : 0 < k)
    (_hcost : List.Chain' (fun a b => c b - c a = k) d)
    (hge : ∀ x ∈ gain_per_ms d m c, th ≤ x) :
    find_taper_point d m c ms th = none := by
  rw [taper_eq_none_iff]
  rintro i ⟨hfit, hbelow⟩
  have hne : ((gain_per_ms d m c).drop i).take ms ≠ [] := by
    have hl : (((gain_per_ms d m c).drop i).take ms).length =
        min ms ((gain_per_ms d m c).length - i) := by
      simp
    intro hnil
    rw [hnil] at hl
    simp at hl
    omega
  obtain ⟨x, hx⟩ := List.exists_mem_of_ne_nil _ hne
  have hxg : x ∈ gain_per_ms d m c := List.mem_of_mem_drop (List.mem_of_mem_take hx)
  exact absurd (hbelow x hx) (not_lt.mpr (hge x hxg))

/-- The four-row table used by claim C4's amended witness: gains are all
about `1`, far above the threshold `1/2`. -/
def c4w_rows : List Row :=
  [⟨"harris_100", 100, 0, 0, 0⟩, ⟨"harris_200", 200, 1, 1, 0⟩,
   ⟨"harris_300", 300, 2, 2, 0⟩, ⟨"harris_400", 400, 3, 3, 0⟩]

/-- Witness for the amended claim C4 at a concrete four-row subset. -/
theorem no_taper_of_gains_ge_threshold_witness :
    1 ≤ 3 ∧
    List.Chain' (fun a b => a.grid_occupancy_percent < b.grid_occupancy_percent) c4w_rows ∧
    (0 : ℚ) < 1 ∧
    List.Chain' (fun a b => b.avg_ms - a.avg_ms = 1) c4w_rows ∧
    (∀ x ∈ gain_per_ms c4w_rows (fun r => r.grid_occupancy_percent) (fun r => r.avg_ms),
      (1/2 : ℚ) ≤ x) ∧
    find_taper_point c4w_rows (fun r => r.grid_occupancy_percent) (fun r => r.avg_ms)
      3 (1/2) = none :=
  ⟨by norm_num, by norm_num [c4w_rows, List.chain'_cons], by norm_num,
    by norm_num [c4w_rows, List.chain'_cons],
    by norm_num [c4w_rows, gain_per_ms, diffs, eps],
    no_taper_of_gains_ge_threshold c4w_rows _ _ 1 (1/2) 3 (by norm_num)
      (by norm_num [c4w_rows, List.chain'_cons]) (by norm_num)
      (by norm_num [c4w_rows, List.chain'_cons])
      (by norm_num [c4w_rows, gain_per_ms, diffs, eps])⟩

/-- Claim C7: a negative gain is strictly below any positive threshold, so
it passes the loop's window test; in particular a window consisting entirely
of negative gains is a taper window. -/
theorem negative_gain_below_threshold (d : List Row) (m c : Row → ℚ) (th : ℚ) (i ms : ℕ)
    (hth : 0 < th)
    (hneg : ∀ x ∈ ((gain_per_ms d m c).drop i).take ms, x < 0) :
    (∀ x ∈ gain_per_ms d m c, x < 0 → x < th) ∧
    windowBelow (gain_per_ms d m c) i ms th = true := by
  refine ⟨fun x _ hx => lt_trans hx hth, ?_⟩
  rw [windowBelow_iff]
  exact fun x hx => lt_trans (hneg x hx) hth

/-- The two-row table used by claim C7's witness: the metric decreases while
the cost increases, so the single gain is negative. -/
def c7_rows : List Row :=
  [⟨"harris_100", 100, 0, 1, 0⟩, ⟨"harris_200", 200, 1, 0, 0⟩]

/-- Witness for claim C7 at a concrete subset with one negative gain. -/
theorem negative_gain_below_threshold_witness :
    (0 : ℚ) < 1/50 ∧
    (∀ x ∈ ((gain_per_ms c7_rows (fun r => r.grid_occupancy_percent)
        (fun r => r.avg_ms)).drop 0).take 1, x < 0) ∧
    windowBelow (gain_per_ms c7_rows (fun r => r.grid_occupancy_percent)
      (fun r => r.avg_ms)) 0 1 (1/50) = true :=
  ⟨by norm_num, by norm_num [c7_rows, gain_per_ms, diffs, eps],
    (negative_gain_below_threshold c7_rows _ _ (1/50) 0 1 (by norm_num)
      (by norm_num [c7_rows, gain_per_ms, diffs, eps])).2⟩

/-- Claim C9: whenever `find_taper_point` returns an index `t` (with a
positive run length), `t` satisfies `1 ≤ t`, `t + min_step ≤ n` and `t < n`
where `n` is the number of rows; in particular `t` is a valid row index and
never the first row. -/
theorem taper_index_in_range (d : List Row) (m c : Row → ℚ) (ms : ℕ) (th : ℚ) (t : ℕ)
    (hms : 1 ≤ ms) (h : find_taper_point d m c ms th = some t) :
    1 ≤ t ∧ t + ms ≤ d.length ∧ t < d.length := by
  obtain ⟨i, hT, -, rfl⟩ := (taper_eq_some_iff d m c ms th t).mp h
  have h1 := hT.1
  have h2 := gain_per_ms_length d m c
  omega

/-- The two-row table used by claims C9's and C10's witnesses: the metric is
flat, so the single gain `0` is below any positive threshold. -/
def c9_rows : List Row :=
  [⟨"harris_100", 100, 0, 0, 0⟩, ⟨"harris_200", 200, 1, 0, 0⟩]

/-- Witness for claim C9 at a concrete subset where a taper is found. -/
theorem taper_index_in_range_witness :
    1 ≤ 1 ∧
    find_taper_point c9_rows (fun r => r.grid_occupancy_percent) (fun r => r.avg_ms)
      1 (1/50) = some 1 ∧
    (1 ≤ 1 ∧ 1 + 1 ≤ c9_rows.length ∧ 1 < c9_rows.length) :=
  ⟨le_refl 1,
    by norm_num [find_taper_point, gain_per_ms, diffs, windowBelow, eps, c9_rows,
      show List.range 1 = [0] from rfl],
    taper_index_in_range c9_rows (fun r => r.grid_occupancy_percent)
      (fun r => r.avg_ms) 1 (1/50) 1 (by norm_num)
      (by norm_num [find_taper_point, gain_per_ms, diffs, windowBelow, eps, c9_rows,
        show List.range 1 = [0] from rfl])⟩

/-- Claim C10: `find_taper_point` is monotone in the threshold: if it finds
an index at threshold `th`, then at any larger threshold it also finds an
index, and that index is no larger. -/
theorem taper_monotone_in_threshold (d : List Row) (m c : Row → ℚ) (ms : ℕ)
    (th th' : ℚ) (t : ℕ)
    (hle : th ≤ th') (h : find_taper_point d m c ms th = some t) :
    ∃ t', find_taper_point d m c ms th' = some t' ∧ t' ≤ t := by
  obtain ⟨i, hT, hmin, rfl⟩ := (taper_eq_some_iff d m c ms th t).mp h
  have hT' : IsTaperStart (gain_per_ms d m c) ms th' i :=
    ⟨hT.1, fun x hx => lt_of_lt_of_le (hT.2 x hx) hle⟩
  have hex : ∃ j, IsTaperStart (gain_per_ms d m c) ms th' j := ⟨i, hT'⟩
  refine ⟨Nat.find hex + 1, ?_, ?_⟩
  · exact (taper_eq_some_iff d m c ms th' _).mpr
      ⟨Nat.find hex, Nat.find_spec hex, fun j hj => Nat.find_min hex hj, rfl⟩
  · have := Nat.find_min' hex hT'
    omega

/-- Witness for claim C10 at a concrete subset and thresholds `1/50 ≤ 1`. -/
theorem taper_monotone_in_threshold_witness :
    (1/50 : ℚ) ≤ 1 ∧
    find_taper_point c9_rows (fun r => r.grid_occupancy_percent) (fun r => r.avg_ms)
      1 (1/50) = some 1 ∧
    (∃ t', find_taper_point c9_rows (fun r => r.grid_occupancy_percent)
      (fun r => r.avg_ms) 1 1 = some t' ∧ t' ≤ 1) :=
  ⟨by norm_num,
    by norm_num [find_taper_point, gain_per_ms, diffs, windowBelow, eps, c9_rows,
      show List.range 1 = [0] from rfl],
    taper_monotone_in_threshold c9_rows _ _ 1 (1/50) 1 1 (by norm_num)
      (by norm_num [find_taper_point, gain_per_ms, diffs, windowBelow, eps, c9_rows,
        show List.range 1 = [0] from rfl])⟩

/-- The spec's end-to-end scenario table (claim C2): four harris rows with
features 100..400, costs 10/18/27/36 ms, grid occupancy 40/55/56/56.1 %. -/
def scenario_rows : List Row :=
  [⟨"harris_100", 100, 10, 40, 5⟩, ⟨"harris_200", 200, 18, 55, 52/10⟩,
   ⟨"harris_300", 300, 27, 56, 53/10⟩, ⟨"harris_400", 400, 36, 561/10, 53/10⟩]

theorem scenario_none_aux :
    find_taper_point scenario_rows (fun r => r.grid_occupancy_percent)
      (fun r => r.avg_ms) 2 (1/20) = none := by
  norm_num [find_taper_point, gain_per_ms, diffs, windowBelow, eps, scenario_rows,
    show List.range 2 = [0, 1] from rfl]
  intro x hx
  interval_cases x <;> norm_num

/-- Claim C2 is false as stated: on the spec's four-row table the per-step
gains are not `[1.67, 0.11, 0.011]` (the first gain is `15/8.000000001 ≈
1.875`, since the first cost delta is `18 - 10 = 8`), and with threshold
`0.05` and `min_step = 2` the detector returns `none`, not taper index 2:
the middle gain `1/9.000000001 ≈ 0.111` is above the threshold, so no
window of two consecutive gains lies entirely below it. -/
theorem scenario_counterexample :
    gain_per_ms scenario_rows (fun r => r.grid_occupancy_percent)
      (fun r => r.avg_ms) ≠ [167/100, 11/100, 11/1000] ∧
    find_taper_point scenario_rows (fun r => r.grid_occupancy_percent)
      (fun r => r.avg_ms) 2 (1/20) ≠ some 2 := by
  constructor
  · norm_num [gain_per_ms, diffs, eps, scenario_rows]
  · rw [scenario_none_aux]
    simp

/-- Claim C2 (amended): on the spec's four-row table the computed per-step
gains are `[15/(8+1e-9), 1/(9+1e-9), 0.1/(9+1e-9)]` (about
`[1.875, 0.111, 0.0111]`); only the last gain is strictly below the
threshold `0.05`, so no window of `min_step = 2` consecutive gains is
entirely below it and the detector returns `none` (no taper point) for the
grid-occupancy metric against the `avg_ms` cost. -/
theorem scenario_taper_absent :
    gain_per_ms scenario_rows (fun r => r.grid_occupancy_percent)
      (fun r => r.avg_ms) = [15 / (8 + eps), 1 / (9 + eps), (1/10) / (9 + eps)] ∧
    ((9/5 : ℚ) < 15 / (8 + eps) ∧ ¬ ((15 : ℚ) / (8 + eps) < 1/20)) ∧
    ((1/10 : ℚ) < 1 / (9 + eps) ∧ ¬ ((1 : ℚ) / (9 + eps) < 1/20)) ∧
    ((1/10 : ℚ) / (9 + eps) < 1/20) ∧
    find_taper_point scenario_rows (fun r => r.grid_occupancy_percent)
      (fun r => r.avg_ms) 2 (1/20) = none := by
  refine ⟨?_, ⟨?_, ?_⟩, ⟨?_, ?_⟩, ?_, scenario_none_aux⟩ <;>
    norm_num [gain_per_ms, diffs, eps, scenario_rows]

/-- Claim C6: the loader's partition is complete and exclusive: a row whose
`preset` starts with `"harris_"` is in the harris subset (exactly when it is
in the table) and never in the fast subset; symmetrically for `"fast_"`; a
row matching neither is in neither subset. -/
theorem partition_complete_and_exclusive (df : List Row) (r : Row) :
    (str_startswith r.preset "harris_" = true →
      ((r ∈ harris df ↔ r ∈ df) ∧ r ∉ fast df)) ∧
    (str_startswith r.preset "fast_" = true →
      ((r ∈ fast df ↔ r ∈ df) ∧ r ∉ harris df)) ∧
    (str_startswith r.preset "harris_" = false →
      str_startswith r.preset "fast_" = false →
      (r ∉ harris df ∧ r ∉ fast df)) := by
  refine ⟨fun hh => ⟨?_, ?_⟩, fun hf => ⟨?_, ?_⟩, fun hh hf => ⟨?_, ?_⟩⟩
  · rw [mem_harris_iff]
    simp [hh]
  · rw [mem_fast_iff]
    simp [startswith_harris_not_fast _ hh]
  · rw [mem_fast_iff]
    simp [hf]
  · rw [mem_harris_iff]
    rintro ⟨-, hh⟩
    exact absurd hf (by simp [startswith_harris_not_fast _ hh])
  · rw [mem_harris_iff]
    simp [hh]
  · rw [mem_fast_iff]
    simp [hf]

/-- The three-row table for claim C6's witness: one harris row, one fast
row, one row matching neither. -/
def c6_table : List Row :=
  [⟨"harris_500", 500, 0, 0, 0⟩, ⟨"fast_500", 500, 1, 0, 0⟩, ⟨"orb_500", 500, 2, 0, 0⟩]

/-- The harris row of `c6_table`, used by claim C6's witness. -/
def c6_row : Row := ⟨"harris_500", 500, 0, 0, 0⟩

/-- Witness for claim C6 at a concrete table and its harris row. -/
theorem partition_complete_and_exclusive_witness :
    str_startswith c6_row.preset "harris_" = true ∧
    ((c6_row ∈ harris c6_table ↔ c6_row ∈ c6_table) ∧ c6_row ∉ fast c6_table) := by
  have h : str_startswith c6_row.preset "harris_" = true := by decide
  exact ⟨h, (partition_complete_and_exclusive c6_table c6_row).1 h⟩

/-- The two-row table of claim C8's counterexample: the cost decreases by
exactly `1e-9`, so the guarded divisor `dc + 1e-9` is exactly zero. -/
def c8_rows : List Row :=
  [⟨"harris_100", 100, 1/1000000000, 0, 0⟩, ⟨"harris_200", 200, 0, 0, 0⟩]

/-- Claim C8 is false as stated: the divisor `dc + 1e-9` is NOT nonzero for
every input subset — on `c8_rows` the single cost delta is `-1e-9` and the
divisor is exactly `0`, so the epsilon does not guard that division. -/
theorem divisor_zero_counterexample :
    cost_divisors c8_rows (fun r => r.avg_ms) = [0] := by
  norm_num [cost_divisors, diffs, eps, c8_rows]

/-- Claim C8 (amended): each gain is computed as
`delta_metric / (delta_cost + 1e-9)` — dividing exactly by the entries of
`cost_divisors` — and whenever the cost column is non-decreasing along the
subset (in particular for every cost delta `≥ 0`) every divisor is strictly
positive, so no division by zero occurs. -/
theorem gain_formula_and_divisor_positive (d : List Row) (m c : Row → ℚ)
    (hc : List.Chain' (fun a b => c a ≤ c b) d) :
    gain_per_ms d m c =
      List.zipWith (fun dm dv => dm / dv) (diffs (d.map m)) (cost_divisors d c) ∧
    ∀ x ∈ cost_divisors d c, 0 < x := by
  constructor
  · rw [gain_per_ms, cost_divisors, List.zipWith_map_right]
  · intro x hx
    rw [cost_divisors] at hx
    obtain ⟨dc, hdc, rfl⟩ := List.mem_map.mp hx
    have h0 : 0 ≤ dc := by
      refine diffs_nonneg_of_chain' (d.map c) ?_ dc hdc
      exact (List.chain'_map c).mpr hc
    have he : (0 : ℚ) < eps := by norm_num [eps]
    linarith

/-- The two-row table for claim C8's amended witness: cost is increasing. -/
def c8w_rows : List Row :=
  [⟨"harris_100", 100, 0, 0, 0⟩, ⟨"harris_200", 200, 1, 0, 0⟩]

/-- Witness for the amended claim C8 at a concrete increasing-cost subset. -/
theorem gain_formula_and_divisor_positive_witness :
    List.Chain' (fun a b => a.avg_ms ≤ b.avg_ms) c8w_rows ∧
    (gain_per_ms c8w_rows (fun r => r.grid_occupancy_percent) (fun r => r.avg_ms) =
      List.zipWith (fun dm dv => dm / dv)
        (diffs (c8w_rows.map (fun r => r.grid_occupancy_percent)))
        (cost_divisors c8w_rows (fun r => r.avg_ms)) ∧
    ∀ x ∈ cost_divisors c8w_rows (fun r => r.avg_ms), 0 < x) :=
  ⟨by norm_num [c8w_rows, List.chain'_cons],
    gain_formula_and_divisor_positive c8w_rows (fun r => r.grid_occupancy_percent)
      (fun r => r.avg_ms) (by norm_num [c8w_rows, List.chain'_cons])⟩

end Orb
